import Mathlib

/-!
Verification of the product-listing extraction and optimization script
(src/index.js).  The script scrapes product listings from a rendered search
page, parses the text fields into typed optional values, and selects a best
listing for several cascading optimization orders.

Shallow embedding conventions:
* a JavaScript value of type `number | null` whose numeric values are
  ordinary finite numbers is embedded as `Option ℚ` (`none` = `null`);
  `NaN` cannot occur in a built `Product` record because every field parser
  either guards with `isNaN` or filters it out, except the price parser,
  which gets its own result type `PriceResult` below so that its `NaN`
  leak is visible;
* a JavaScript `Date` stored in a listing is embedded as its time value
  (`ℤ`, the `getTime` number); `Date` objects are always truthy, so the
  truthiness test `p.deliveryDate` is `Option.isSome`;
* JavaScript numeric truthiness (`p.price`, `p.rating`) is
  `jsTruthyNum`: `null` and `0` are falsy, every other number is truthy;
* `array[0]` on a possibly empty array is `List.head?` (`undefined` and
  `null` both embed to `none`);
* `arr.reduce(f, arr[0])` on a non-empty array folds `f` over the whole
  array, the first element included, starting from the first element.
-/

namespace ProductOptimizer

/-- One structured product listing (the `Product` typedef of src/index.js,
lines 120-127): every field is independently optional. -/
structure Product where
  url : Option String
  price : Option ℚ
  deliveryDate : Option ℤ
  rating : Option ℚ
  ratingCount : Option ℤ
deriving DecidableEq

/-- Truthiness of a JavaScript `number | null` value: `null` and `0` are
falsy, every other (finite) number is truthy. -/
def jsTruthyNum (x : Option ℚ) : Bool :=
  match x with
  | none => false
  | some q => decide (q ≠ 0)

/-- Embedding of `getEarliestDeliveryDateOfProducts` (src/index.js lines
153-164): keep the listings whose `deliveryDate` is present (a `Date`
object is always truthy), map to the date, and reduce to the earliest,
starting the reduce from the first date over the whole array. -/
def getEarliestDeliveryDateOfProducts (productDetails : List Product) : Option ℤ :=
  let deliveryDates :=
    (productDetails.filter (fun p => p.deliveryDate.isSome)).map
      (fun p => p.deliveryDate.getD 0)
  match deliveryDates with
  | [] => none
  | d :: ds =>
    some (List.foldl
      (fun earliestDate date => if earliestDate > date then date else earliestDate)
      d (d :: ds))

/-- Embedding of `getFastestDeliveredProducts` (src/index.js lines
172-180): if no earliest date exists return the empty list, otherwise keep
the listings with a present delivery date whose time value equals the
earliest one. -/
def getFastestDeliveredProducts (productDetails : List Product) : List Product :=
  match getEarliestDeliveryDateOfProducts productDetails with
  | none => []
  | some earliestDate =>
    (productDetails.filter (fun p => p.deliveryDate.isSome)).filter
      (fun p => p.deliveryDate.getD 0 == earliestDate)

/-- Embedding of `getLowestPriceOfProducts` (src/index.js lines 188-199):
`filter(p => p.price)` keeps the listings whose price is truthy (present
and nonzero), and the reduce starts from the first price over the whole
array. -/
def getLowestPriceOfProducts (productDetails : List Product) : Option ℚ :=
  let prices := (productDetails.filter (fun p => jsTruthyNum p.price)).map
    (fun p => p.price.getD 0)
  match prices with
  | [] => none
  | q :: qs =>
    some (List.foldl
      (fun lowestPrice price => if lowestPrice > price then price else lowestPrice)
      q (q :: qs))

/-- Embedding of `getProductsOfLowestPrice` (src/index.js lines 207-211):
keep the listings whose price is truthy and strictly equal to the computed
lowest price (a strict equality of a number with `null` is false, which
the `Option` equality mirrors). -/
def getProductsOfLowestPrice (productDetails : List Product) : List Product :=
  let lowestPrice := getLowestPriceOfProducts productDetails
  productDetails.filter (fun p => jsTruthyNum p.price && p.price == lowestPrice)

/-- Embedding of `getHighestRatingOfProducts` (src/index.js lines
219-230): `filter(p => p.rating)` keeps the listings whose rating is
truthy (present and nonzero), and the reduce starts from the first rating
over the whole array. -/
def getHighestRatingOfProducts (productDetails : List Product) : Option ℚ :=
  let ratings := (productDetails.filter (fun p => jsTruthyNum p.rating)).map
    (fun p => p.rating.getD 0)
  match ratings with
  | [] => none
  | r :: rs =>
    some (List.foldl
      (fun highestRating rating => if highestRating < rating then rating else highestRating)
      r (r :: rs))

/-- Embedding of `getProductsOfHighestRating` (src/index.js lines
238-245): the guard `if (!highestRating) return []` is falsy both for
`null` and for `0`, then keep the listings whose rating is truthy and
equal to the highest one. -/
def getProductsOfHighestRating (productDetails : List Product) : List Product :=
  match getHighestRatingOfProducts productDetails with
  | none => []
  | some highestRating =>
    if highestRating == 0 then []
    else productDetails.filter
      (fun p => jsTruthyNum p.rating && p.rating == some highestRating)

/-- Keys of the `Optimizations` dispatch object (src/index.js lines
254-258), in declaration order; `Object.keys(Optimizations).includes(type)`
is membership in this list. -/
def OptimizationKeys : List String := ["PRICE", "DELIVERY_DATE", "RATING"]

/-- Embedding of the `Optimizations` dispatch object (src/index.js lines
254-258): the reducer selected by the criterion tag.  The final catch-all
branch is unreachable in `getProductOptimizedFor`, which validates the tag
against `OptimizationKeys` first. -/
def Optimizations (type : String) (productDetails : List Product) : List Product :=
  if type == "PRICE" then getProductsOfLowestPrice productDetails
  else if type == "DELIVERY_DATE" then getFastestDeliveredProducts productDetails
  else if type == "RATING" then getProductsOfHighestRating productDetails
  else productDetails

/-- Embedding of the criterion loop of `getProductOptimizedFor`
(src/index.js lines 271-278): walk the criteria in order; an unrecognized
tag aborts the whole call (`none`); an empty narrowing keeps the current
candidate set (`continue`); otherwise the narrowing replaces it. -/
def optimizeLoop (optimizedProducts : List Product) : List String → Option (List Product)
  | [] => some optimizedProducts
  | type :: rest =>
    if OptimizationKeys.contains type then
      let tempOptimizedProducts := Optimizations type optimizedProducts
      if tempOptimizedProducts.isEmpty then optimizeLoop optimizedProducts rest
      else optimizeLoop tempOptimizedProducts rest
    else none

/-- Embedding of `getProductOptimizedFor` (src/index.js lines 268-286):
run the criterion loop from the full collection; if more than one
candidate remains, narrow once more by highest rating, keeping the
previous candidates when that narrowing is empty; return the first
candidate (`optimizedProducts[0]`, which is `undefined` on an empty
array, hence `head?`). -/
def getProductOptimizedFor (productDetails : List Product)
    (optimizationTypes : List String) : Option Product :=
  match optimizeLoop productDetails optimizationTypes with
  | none => none
  | some optimizedProducts =>
    let final :=
      if optimizedProducts.length > 1 then
        let tempOptimizedProducts := getProductsOfHighestRating optimizedProducts
        if tempOptimizedProducts.isEmpty then optimizedProducts
        else tempOptimizedProducts
      else optimizedProducts
    final.head?

/-! Field-parser embeddings.  The price parser and the delivery-date parser
both lean on JavaScript runtime primitives (`parseFloat`, the `Date`
string constructor); those primitives are modelled below on the fragment
of inputs the script can feed them, following the behavior of V8, the
engine of the browsers this page script runs in. -/

/-- Value of a list of decimal digit characters, most significant first. -/
def natOfDigits (digits : List Char) : Nat :=
  digits.foldl (fun n c => 10 * n + (c.toNat - 48)) 0

/-- Decimal digit test, written out on character codes. -/
def isDigitChar (c : Char) : Bool :=
  48 ≤ c.toNat && c.toNat ≤ 57

/-- White space test used by the leading-space skip of `parseFloat`. -/
def isSpaceChar (c : Char) : Bool :=
  c == ' ' || c == '\t' || c == '\n' || c == '\r'

/-- Model of the JavaScript `parseFloat` builtin on the inputs this
program can produce: skip leading white space, an optional sign, then a
run of digits with an optional fractional part; `none` stands for the
`NaN` result on inputs with no leading number.  The exponent and
`Infinity` forms of `parseFloat` are not modelled; no input considered in
this development uses them. -/
def jsParseFloat (s : String) : Option ℚ :=
  let cs := s.data.dropWhile isSpaceChar
  let sign : ℚ := if cs.head? == some '-' then -1 else 1
  let cs2 := if cs.head? == some '-' || cs.head? == some '+' then cs.tail else cs
  let intDigits := cs2.takeWhile isDigitChar
  let rest := cs2.dropWhile isDigitChar
  let fracDigits := if rest.head? == some '.' then rest.tail.takeWhile isDigitChar else []
  if intDigits.isEmpty && fracDigits.isEmpty then none
  else some (sign * ((natOfDigits intDigits : ℚ) +
    (natOfDigits fracDigits : ℚ) / (10 : ℚ) ^ fracDigits.length))

/-- Result of the price extraction: JavaScript `null`, the `NaN` number,
or an ordinary number. -/
inductive PriceResult where
  | null : PriceResult
  | nan : PriceResult
  | num : ℚ → PriceResult
deriving DecidableEq

/-- Embedding of `getPriceFromElement` (src/index.js lines 60-66).  The
two arguments are the `innerText` of the whole-part and fraction-part
price elements when those elements exist (`none` when the element is
missing).  The concatenation happens when both elements exist; the string
truthiness test `totalPriceAsString ?` then sends the empty concatenation
to `null`, and otherwise the result is whatever `parseFloat` returns,
including `NaN`. -/
def getPriceFromElement (priceWhole priceFraction : Option String) : PriceResult :=
  match priceWhole, priceFraction with
  | some w, some f =>
    let totalPriceAsString := w ++ f
    if totalPriceAsString == "" then PriceResult.null
    else
      match jsParseFloat totalPriceAsString with
      | some q => PriceResult.num q
      | none => PriceResult.nan
  | _, _ => PriceResult.null

/-- Calendar date produced by the delivery-date parser: year, month
(1 to 12) and day of month. -/
structure JsDate where
  year : Nat
  month : Nat
  day : Nat
deriving DecidableEq

/-- Three-letter month abbreviations, in order. -/
def monthNames : List String :=
  ["Jan", "Feb", "Mar", "Apr", "May", "Jun", "Jul", "Aug", "Sep", "Oct", "Nov", "Dec"]

/-- One-based month number of a three-letter month token, when it names a
month. -/
def monthNumber (s : String) : Option Nat :=
  match monthNames.findIdx? (fun m => m == s) with
  | some i => some (i + 1)
  | none => none

/-- Gregorian leap-year test. -/
def isLeapYear (y : Nat) : Bool :=
  (y % 4 == 0 && y % 100 != 0) || y % 400 == 0

/-- Number of days of a month. -/
def daysInMonth (year month : Nat) : Nat :=
  if month == 2 then (if isLeapYear year then 29 else 28)
  else if month == 4 || month == 6 || month == 9 || month == 11 then 30
  else 31

/-- Day composition of the ECMAScript `MakeDay` operation for a day
number of at most 31: a day beyond the length of the month rolls over
into the following month. -/
def jsMakeDay (year month day : Nat) : JsDate :=
  if day ≤ daysInMonth year month then ⟨year, month, day⟩
  else if month == 12 then ⟨year + 1, 1, day - daysInMonth year month⟩
  else ⟨year, month + 1, day - daysInMonth year month⟩

/-- Model of `new Date("Mmm D, YYYY")` under the V8 legacy date-string
parser, on the strings `parseDeliveryDateString` constructs: the month
token must name a month, the day must lie between 1 and 31 (anything else
is the invalid date, embedded as `none`), and an in-range day beyond the
length of the month rolls over into the following month — the well known
V8 behavior under which `new Date("Feb 30, 2014")` denotes March 2
2014 rather than an invalid date. -/
def jsNewDateFromParts (monthStr : String) (day year : Nat) : Option JsDate :=
  match monthNumber monthStr with
  | none => none
  | some m => if 1 ≤ day && day ≤ 31 then some (jsMakeDay year m day) else none

/-- Test that the first list is an initial segment of the second. -/
def startsWithList : List Char → List Char → Bool
  | [], _ => true
  | _ :: _, [] => false
  | p :: ps, c :: cs => p == c && startsWithList ps cs

/-- First occurrence of the separator in a character list: the characters
before it and the characters after it, or `none` when the separator does
not occur (for a non-empty separator). -/
def findSplit (sep : List Char) : List Char → Option (List Char × List Char)
  | [] =>
    if startsWithList sep [] then some ([], ([] : List Char).drop sep.length)
    else none
  | c :: t =>
    if startsWithList sep (c :: t) then some ([], (c :: t).drop sep.length)
    else
      match findSplit sep t with
      | none => none
      | some (pre, rest) => some (c :: pre, rest)

/-- Fuelled splitting on a separator; the fuel bounds the number of
separator occurrences, so the length of the list is always enough for a
non-empty separator. -/
def splitOnListFuel (sep : List Char) : Nat → List Char → List (List Char)
  | 0, l => [l]
  | fuel + 1, l =>
    match findSplit sep l with
    | none => [l]
    | some (pre, rest) => pre :: splitOnListFuel sep fuel rest

/-- Model of the JavaScript `split` string method with a non-empty string
separator: the pieces between consecutive occurrences of the separator,
in order. -/
def jsSplit (s sep : String) : List String :=
  (splitOnListFuel sep.data s.data.length s.data).map String.mk

/-- Model of the JavaScript `trim` string method: remove white space from
both ends (of the white-space characters the script can meet, space, tab
and the two line breaks). -/
def jsTrim (s : String) : String :=
  String.mk (((s.data.dropWhile isSpaceChar).reverse.dropWhile isSpaceChar).reverse)

/-- Matcher for one `Weekday, Month Day` block of the delivery-date
pattern, that is the regular-expression fragment
`[A-Z][a-z]{2}, [A-Z][a-z]{2} \d{1,2}`: on success it returns the
characters that follow the block (the day may not be followed by a third
digit, exactly as the anchored regular expression with backtracking
behaves). -/
def matchDatePart : List Char → Option (List Char)
  | u1 :: l1 :: l2 :: ',' :: ' ' :: u2 :: m1 :: m2 :: ' ' :: rest =>
    if ('A' ≤ u1 && u1 ≤ 'Z') && ('a' ≤ l1 && l1 ≤ 'z') && ('a' ≤ l2 && l2 ≤ 'z') &&
       ('A' ≤ u2 && u2 ≤ 'Z') && ('a' ≤ m1 && m1 ≤ 'z') && ('a' ≤ m2 && m2 ≤ 'z') then
      match rest with
      | [] => none
      | d1 :: rest1 =>
        if isDigitChar d1 then
          match rest1 with
          | [] => some []
          | d2 :: rest2 =>
            if isDigitChar d2 then
              match rest2 with
              | d3 :: _ => if isDigitChar d3 then none else some rest2
              | [] => some []
            else some rest1
        else none
    else none
  | _ => none

/-- Test of the anchored pattern
`^[A-Z][a-z]{2}, [A-Z][a-z]{2} \d{1,2}( - [A-Z][a-z]{2}, [A-Z][a-z]{2} \d{1,2})?$`
of src/index.js line 19. -/
def basicPatternTest (s : String) : Bool :=
  match matchDatePart s.data with
  | none => false
  | some rest =>
    match rest with
    | [] => true
    | ' ' :: '-' :: ' ' :: rest2 =>
      match matchDatePart rest2 with
      | some [] => true
      | _ => false
    | _ => false

/-- Embedding of `parseDeliveryDateString` (src/index.js lines 16-30):
trim, test the anchored pattern, split on `", "` and take the second
part, split that part on spaces into month token and day digits, and
build the date from month, day and the current year through the `Date`
string constructor, returning `none` for an invalid date.  The current
year (`new Date().getFullYear()`) is passed in as a parameter. -/
def parseDeliveryDateString (currentYear : Nat) (dateString : String) : Option JsDate :=
  let trimmedDateString := jsTrim dateString
  if !(basicPatternTest trimmedDateString) then none
  else
    let dateParts := jsSplit trimmedDateString ", "
    let monthDayParts := jsSplit (dateParts.getD 1 "") " "
    let month := monthDayParts.getD 0 ""
    let day := monthDayParts.getD 1 ""
    jsNewDateFromParts month (natOfDigits day.data) currentYear

/-! Specification-side definitions.  These follow the words of the spec
(sections 4.3 and 4.4), so that the theorems below can compare the
embedded code against them. -/

/-- Prices the spec-side lowest-price reducer considers: present and
nonzero prices, in listing order. -/
def presentNonzeroPrices (l : List Product) : List ℚ :=
  l.filterMap (fun p => p.price.bind (fun q => if q = 0 then none else some q))

/-- Spec-side lowest-price `listingsAtExtremum`: the listings whose price
equals the minimum considered price exactly, or the empty list when there
is no considered price. -/
def pricesAtMinimum (l : List Product) : List Product :=
  match (presentNonzeroPrices l).min? with
  | none => []
  | some m => l.filter (fun p => p.price == some m)

/-- Ratings the spec-side highest-rating reducer considers: present and
nonzero ratings, in listing order (zero counts as no rating). -/
def presentNonzeroRatings (l : List Product) : List ℚ :=
  l.filterMap (fun p => p.rating.bind (fun q => if q = 0 then none else some q))

/-- Spec-side highest-rating `listingsAtExtremum`: the listings whose
rating equals the maximum considered rating exactly, or the empty list
when there is no considered rating. -/
def ratingsAtMaximum (l : List Product) : List Product :=
  match (presentNonzeroRatings l).max? with
  | none => []
  | some m => l.filter (fun p => p.rating == some m)

/-- Spec-side cascading narrowing (spec section 4.4, steps 2 to 4): apply
each criterion in order to the current candidate set, keeping the
previous candidate set unchanged whenever the narrowing comes back
empty. -/
def specCascade (listings : List Product) (criteria : List String) : List Product :=
  criteria.foldl
    (fun candidates c =>
      let narrowed := Optimizations c candidates
      if narrowed.isEmpty then candidates else narrowed)
    listings

/-- Spec-side final disambiguation (spec section 4.4, last step): when
more than one candidate remains, narrow by highest rating, keeping the
previous candidates when that narrowing is empty; the result is the first
element of the final candidate set. -/
def specFinalChoice (candidates : List Product) : Option Product :=
  if candidates.length > 1 then
    let narrowed := getProductsOfHighestRating candidates
    if narrowed.isEmpty then candidates.head? else narrowed.head?
  else candidates.head?

/-! Concrete listings used by the closed statements below. -/

/-- Listing with price 10, rating 4, delivery time 2. -/
def listingA : Product := ⟨some "A", some 10, some 2, some 4, none⟩

/-- Listing with price 5 (first of the two). -/
def listingP5a : Product := ⟨some "a", some 5, none, none, none⟩

/-- Listing with price 5 (second of the two). -/
def listingP5b : Product := ⟨some "b", some 5, none, none, none⟩

/-- Listing with absent price. -/
def listingPAbsent : Product := ⟨some "n", none, none, none, none⟩

/-- Listing with price 8. -/
def listingP8 : Product := ⟨some "e", some 8, none, none, none⟩

/-- Listing with price 0 and nothing else. -/
def listingPZero : Product := ⟨some "z", some 0, none, none, none⟩

/-- Listing with no price and rating 3. -/
def listingR3 : Product := ⟨some "r", none, none, some 3, none⟩

/-- Listing with no price and rating 5. -/
def listingR5 : Product := ⟨some "s", none, none, some 5, none⟩

/-! Helper lemmas. -/

/-- Reduction step of the source minimum reducers is the lattice `min`. -/
theorem ite_gt_eq_min {α : Type} [LinearOrder α] (a b : α) :
    (if a > b then b else a) = min a b := by
  rcases lt_or_le b a with h | h
  · rw [if_pos h, min_eq_right h.le]
  · rw [if_neg (not_lt.mpr h), min_eq_left h]

/-- Reduction step of the source maximum reducer is the lattice `max`. -/
theorem ite_lt_eq_max {α : Type} [LinearOrder α] (a b : α) :
    (if a < b then b else a) = max a b := by
  rcases lt_or_le a b with h | h
  · rw [if_pos h, max_eq_right h.le]
  · rw [if_neg (not_lt.mpr h), max_eq_left h]

/-- Reduce-from-the-first-element over the whole list with the source
minimum step computes `List.min?`. -/
theorem reduce_min_eq_min? {α : Type} [LinearOrder α] (a : α) (as : List α) :
    some (List.foldl (fun x y => if x > y then y else x) a (a :: as)) =
      (a :: as).min? := by
  have hf : (fun x y : α => if x > y then y else x) = min := by
    funext x y
    exact ite_gt_eq_min x y
  rw [List.min?_cons', hf, List.foldl_cons, min_self]

/-- Reduce-from-the-first-element over the whole list with the source
maximum step computes `List.max?`. -/
theorem reduce_max_eq_max? {α : Type} [LinearOrder α] (a : α) (as : List α) :
    some (List.foldl (fun x y => if x < y then y else x) a (a :: as)) =
      (a :: as).max? := by
  have hf : (fun x y : α => if x < y then y else x) = max := by
    funext x y
    exact ite_lt_eq_max x y
  rw [List.max?_cons', hf, List.foldl_cons, max_self]

/-- Filtering on price truthiness and reading the price off is the same
as collecting the present nonzero prices. -/
theorem prices_list_eq (l : List Product) :
    (l.filter (fun p => jsTruthyNum p.price)).map (fun p => p.price.getD 0) =
      presentNonzeroPrices l := by
  unfold presentNonzeroPrices
  induction l with
  | nil => rfl
  | cons p t ih =>
    rw [List.filter_cons, List.filterMap_cons]
    cases hp : p.price with
    | none => simpa [jsTruthyNum, hp] using ih
    | some q =>
      by_cases hq : q = 0
      · simpa [jsTruthyNum, hp, hq] using ih
      · simpa [jsTruthyNum, hp, hq] using ih

/-- Filtering on rating truthiness and reading the rating off is the same
as collecting the present nonzero ratings. -/
theorem ratings_list_eq (l : List Product) :
    (l.filter (fun p => jsTruthyNum p.rating)).map (fun p => p.rating.getD 0) =
      presentNonzeroRatings l := by
  unfold presentNonzeroRatings
  induction l with
  | nil => rfl
  | cons p t ih =>
    rw [List.filter_cons, List.filterMap_cons]
    cases hp : p.rating with
    | none => simpa [jsTruthyNum, hp] using ih
    | some q =>
      by_cases hq : q = 0
      · simpa [jsTruthyNum, hp, hq] using ih
      · simpa [jsTruthyNum, hp, hq] using ih

/-- Lowest-price extremum of the code is the minimum of the present
nonzero prices. -/
theorem getLowestPriceOfProducts_eq (l : List Product) :
    getLowestPriceOfProducts l = (presentNonzeroPrices l).min? := by
  simp only [getLowestPriceOfProducts]
  rw [prices_list_eq]
  cases h : presentNonzeroPrices l with
  | nil => rfl
  | cons a as => exact reduce_min_eq_min? a as

/-- Highest-rating extremum of the code is the maximum of the present
nonzero ratings. -/
theorem getHighestRatingOfProducts_eq (l : List Product) :
    getHighestRatingOfProducts l = (presentNonzeroRatings l).max? := by
  simp only [getHighestRatingOfProducts]
  rw [ratings_list_eq]
  cases h : presentNonzeroRatings l with
  | nil => rfl
  | cons a as => exact reduce_max_eq_max? a as

/-- Membership of a considered price list forces the value nonzero. -/
theorem mem_presentNonzeroPrices_ne_zero {l : List Product} {m : ℚ}
    (hm : m ∈ presentNonzeroPrices l) : m ≠ 0 := by
  rcases List.mem_filterMap.mp hm with ⟨p, _, hpe⟩
  cases hpp : p.price with
  | none => rw [hpp] at hpe; exact absurd hpe (by simp)
  | some q =>
    rw [hpp] at hpe
    by_cases hq : q = 0
    · simp [hq] at hpe
    · simp [hq] at hpe
      exact hpe ▸ hq

/-- Membership of a considered rating list forces the value nonzero. -/
theorem mem_presentNonzeroRatings_ne_zero {l : List Product} {m : ℚ}
    (hm : m ∈ presentNonzeroRatings l) : m ≠ 0 := by
  rcases List.mem_filterMap.mp hm with ⟨p, _, hpe⟩
  cases hpp : p.rating with
  | none => rw [hpp] at hpe; exact absurd hpe (by simp)
  | some q =>
    rw [hpp] at hpe
    by_cases hq : q = 0
    · simp [hq] at hpe
    · simp [hq] at hpe
      exact hpe ▸ hq

/-- Lowest-price matches of the code are the spec-side exact-equality
matches at the minimum considered price. -/
theorem getProductsOfLowestPrice_eq (l : List Product) :
    getProductsOfLowestPrice l = pricesAtMinimum l := by
  simp only [getProductsOfLowestPrice, pricesAtMinimum]
  rw [getLowestPriceOfProducts_eq]
  cases h : (presentNonzeroPrices l).min? with
  | none =>
    rw [List.filter_eq_nil_iff]
    intro p _
    cases hpp : p.price <;> simp [jsTruthyNum, hpp]
  | some m =>
    have hm0 : m ≠ 0 :=
      mem_presentNonzeroPrices_ne_zero (List.min?_mem (fun a b => min_choice a b) h)
    apply List.filter_congr
    intro p _
    cases hpp : p.price with
    | none => simp [jsTruthyNum]
    | some q =>
      by_cases hq : q = m
      · subst hq
        simp [jsTruthyNum, hm0]
      · simp [jsTruthyNum, hq]

/-- Highest-rating matches of the code are the spec-side exact-equality
matches at the maximum considered rating. -/
theorem getProductsOfHighestRating_eq (l : List Product) :
    getProductsOfHighestRating l = ratingsAtMaximum l := by
  simp only [getProductsOfHighestRating, ratingsAtMaximum]
  rw [getHighestRatingOfProducts_eq]
  cases h : (presentNonzeroRatings l).max? with
  | none => rfl
  | some m =>
    have hm0 : m ≠ 0 :=
      mem_presentNonzeroRatings_ne_zero (List.max?_mem (fun a b => max_choice a b) h)
    show (if m == 0 then []
      else l.filter (fun p => jsTruthyNum p.rating && p.rating == some m)) =
        l.filter (fun p => p.rating == some m)
    rw [if_neg (by simpa using hm0)]
    apply List.filter_congr
    intro p _
    cases hpp : p.rating with
    | none => simp [jsTruthyNum]
    | some q =>
      by_cases hq : q = m
      · subst hq
        simp [jsTruthyNum, hm0]
      · simp [jsTruthyNum, hq]

/-- Lowest-price matches form a sublist of the input collection. -/
theorem getProductsOfLowestPrice_sublist (l : List Product) :
    List.Sublist (getProductsOfLowestPrice l) l := by
  simp only [getProductsOfLowestPrice]
  exact List.filter_sublist l

/-- Highest-rating matches form a sublist of the input collection. -/
theorem getProductsOfHighestRating_sublist (l : List Product) :
    List.Sublist (getProductsOfHighestRating l) l := by
  unfold getProductsOfHighestRating
  split
  · exact List.nil_sublist l
  · split
    · exact List.nil_sublist l
    · exact List.filter_sublist l

/-- Earliest-delivery matches form a sublist of the input collection. -/
theorem getFastestDeliveredProducts_sublist (l : List Product) :
    List.Sublist (getFastestDeliveredProducts l) l := by
  unfold getFastestDeliveredProducts
  split
  · exact List.nil_sublist l
  · exact (List.filter_sublist _).trans (List.filter_sublist l)

/-- Every dispatched reducer narrows to a sublist of its input. -/
theorem Optimizations_sublist (type : String) (l : List Product) :
    List.Sublist (Optimizations type l) l := by
  unfold Optimizations
  split_ifs
  · exact getProductsOfLowestPrice_sublist l
  · exact getFastestDeliveredProducts_sublist l
  · exact getProductsOfHighestRating_sublist l
  · exact List.Sublist.refl l

/-- Every dispatched reducer sends the empty collection to the empty
collection. -/
theorem Optimizations_nil (type : String) : Optimizations type [] = [] :=
  List.sublist_nil.mp (Optimizations_sublist type [])

/-- A successful criterion loop returns a sublist of its starting
candidate set. -/
theorem optimizeLoop_sublist (cs : List String) :
    ∀ cur res : List Product, optimizeLoop cur cs = some res → List.Sublist res cur := by
  induction cs with
  | nil =>
    intro cur res h
    simp only [optimizeLoop] at h
    cases h
    exact List.Sublist.refl cur
  | cons c rest ih =>
    intro cur res h
    simp only [optimizeLoop] at h
    by_cases hv : OptimizationKeys.contains c = true
    · rw [if_pos hv] at h
      by_cases he : (Optimizations c cur).isEmpty = true
      · rw [if_pos he] at h
        exact ih cur res h
      · rw [if_neg he] at h
        exact (ih _ res h).trans (Optimizations_sublist c cur)
    · rw [if_neg hv] at h
      cases h

/-- On an all-valid criteria list the criterion loop succeeds and computes
the spec-side cascade. -/
theorem optimizeLoop_valid (cs : List String) :
    ∀ cur : List Product, (∀ c ∈ cs, OptimizationKeys.contains c = true) →
      optimizeLoop cur cs = some (specCascade cur cs) := by
  induction cs with
  | nil => intro cur _; rfl
  | cons c rest ih =>
    intro cur hval
    have hc := hval c (List.mem_cons_self c rest)
    have hrest : ∀ x ∈ rest, OptimizationKeys.contains x = true :=
      fun x hx => hval x (List.mem_cons_of_mem c hx)
    simp only [optimizeLoop, specCascade, List.foldl_cons]
    rw [if_pos hc]
    by_cases he : (Optimizations c cur).isEmpty = true
    · rw [if_pos he, if_pos he]
      exact ih cur hrest
    · rw [if_neg he, if_neg he]
      exact ih _ hrest

/-- The spec-side cascade never empties a non-empty candidate set. -/
theorem specCascade_ne_nil (cs : List String) :
    ∀ cur : List Product, cur ≠ [] → specCascade cur cs ≠ [] := by
  induction cs with
  | nil => intro cur h; exact h
  | cons c rest ih =>
    intro cur h
    simp only [specCascade, List.foldl_cons]
    by_cases he : (Optimizations c cur).isEmpty = true
    · rw [if_pos he]
      exact ih cur h
    · rw [if_neg he]
      exact ih _ (fun hnil => he (by simp [hnil]))

/-- The spec-side cascade of the empty collection is empty. -/
theorem specCascade_nil (cs : List String) : specCascade [] cs = [] := by
  induction cs with
  | nil => rfl
  | cons c rest ih =>
    simp only [specCascade, List.foldl_cons]
    rw [Optimizations_nil c, if_pos List.isEmpty_nil]
    exact ih

/-- A criteria list containing an unrecognized tag makes the criterion
loop abort. -/
theorem optimizeLoop_invalid (cs : List String) :
    ∀ cur : List Product, (∃ c ∈ cs, OptimizationKeys.contains c = false) →
      optimizeLoop cur cs = none := by
  induction cs with
  | nil =>
    intro cur h
    rcases h with ⟨c, hc, _⟩
    exact absurd hc (List.not_mem_nil c)
  | cons c rest ih =>
    intro cur h
    simp only [optimizeLoop]
    by_cases hv : OptimizationKeys.contains c = true
    · rw [if_pos hv]
      have hr : ∃ x ∈ rest, OptimizationKeys.contains x = false := by
        rcases h with ⟨x, hx, hxf⟩
        rcases List.mem_cons.mp hx with h1 | h1
        · subst h1
          rw [hv] at hxf
          cases hxf
        · exact ⟨x, h1, hxf⟩
      by_cases he : (Optimizations c cur).isEmpty = true
      · rw [if_pos he]
        exact ih cur hr
      · rw [if_neg he]
        exact ih _ hr
    · rw [if_neg hv]

/-- First element of a list is a member. -/
theorem mem_of_head?_eq_some {α : Type} {l : List α} {a : α}
    (h : l.head? = some a) : a ∈ l := by
  cases l with
  | nil => cases h
  | cons b t =>
    rw [List.head?_cons] at h
    cases h
    exact List.mem_cons_self _ _

/-- Skipping form of one loop step: a valid criterion whose narrowing is
empty leaves the candidate set unchanged. -/
theorem optimizeLoop_skip (cur : List Product) (c : String) (rest : List String)
    (hc : OptimizationKeys.contains c = true) (he : Optimizations c cur = []) :
    optimizeLoop cur (c :: rest) = optimizeLoop cur rest := by
  simp only [optimizeLoop]
  rw [if_pos hc, he, if_pos List.isEmpty_nil]

/-- Digit characters differ from any non-digit character. -/
theorem digit_beq_false {c d : Char} (h : isDigitChar c = true)
    (hd : isDigitChar d = false) : (c == d) = false := by
  cases hbe : c == d
  · rfl
  · exfalso
    rw [eq_of_beq hbe, hd] at h
    exact Bool.noConfusion h

/-- Digit characters are not white space. -/
theorem digit_not_space {c : Char} (h : isDigitChar c = true) :
    isSpaceChar c = false := by
  unfold isSpaceChar
  rw [digit_beq_false h (by decide), digit_beq_false h (by decide),
    digit_beq_false h (by decide), digit_beq_false h (by decide)]
  rfl

/-- On a non-empty all-digit string, the modelled `parseFloat` returns the
decimal value of the digits. -/
theorem jsParseFloat_digits (s : String) (hne : s.data ≠ [])
    (hdig : ∀ c ∈ s.data, isDigitChar c = true) :
    jsParseFloat s = some ((natOfDigits s.data : ℚ)) := by
  simp only [jsParseFloat]
  cases hd : s.data with
  | nil => exact absurd hd hne
  | cons c t =>
    have hall : ∀ x ∈ c :: t, isDigitChar x = true := by
      intro x hx
      exact hdig x (by rw [hd]; exact hx)
    have hc : isDigitChar c = true := hall c (List.mem_cons_self _ _)
    have h1 : (c :: t).dropWhile isSpaceChar = c :: t := by
      rw [List.dropWhile_cons, digit_not_space hc]
      rfl
    have h2 : (((c :: t).head?) == some '-') = false := by
      rw [List.head?_cons]
      show (c == '-') = false
      exact digit_beq_false hc (by decide)
    have h3 : (((c :: t).head?) == some '+') = false := by
      rw [List.head?_cons]
      show (c == '+') = false
      exact digit_beq_false hc (by decide)
    have h4 : (c :: t).takeWhile isDigitChar = c :: t :=
      List.takeWhile_eq_self_iff.mpr hall
    have h5 : (c :: t).dropWhile isDigitChar = [] :=
      List.dropWhile_eq_nil_iff.mpr hall
    have h6 : (([] : List Char).head? == some '.') = false := by decide
    rw [h1]
    simp only [h2, h3, h4, h5, h6, Bool.or_self, Bool.false_eq_true, if_false,
      List.isEmpty_cons, List.isEmpty_nil, Bool.false_and, Bool.and_true]
    norm_num [natOfDigits]

/-! Claim theorems. -/

/-- C4 (counterexample): on the raw texts "a" and "b" the price parser
returns the not-a-number value, which differs from the absent value, so a
non-numeric concatenation does not degrade to absent. -/
theorem getPriceFromElement_nan_counterexample :
    getPriceFromElement (some "a") (some "b") = PriceResult.nan ∧
    PriceResult.nan ≠ PriceResult.null := by
  decide

/-- C4 (amended): the price parser is a total function (so it never
throws); it returns the absent value exactly when either part is missing
or the concatenated text is empty, and it returns the not-a-number value
exactly when the non-empty concatenated text does not parse to a
number. -/
theorem getPriceFromElement_failure_modes :
    ∀ w f : Option String,
      (getPriceFromElement w f = PriceResult.null ↔
        w = none ∨ f = none ∨ ∃ a b, w = some a ∧ f = some b ∧ a ++ b = "") ∧
      (getPriceFromElement w f = PriceResult.nan ↔
        ∃ a b, w = some a ∧ f = some b ∧ a ++ b ≠ "" ∧
          jsParseFloat (a ++ b) = none) := by
  intro w f
  cases w with
  | none =>
    constructor
    · exact iff_of_true rfl (Or.inl rfl)
    · constructor
      · intro h
        exact PriceResult.noConfusion h
      · rintro ⟨x, y, hx, _, _, _⟩
        exact Option.noConfusion hx
  | some a =>
    cases f with
    | none =>
      constructor
      · exact iff_of_true rfl (Or.inr (Or.inl rfl))
      · constructor
        · intro h
          exact PriceResult.noConfusion h
        · rintro ⟨x, y, _, hy, _, _⟩
          exact Option.noConfusion hy
    | some b =>
      by_cases hab : a ++ b = ""
      · have hval : getPriceFromElement (some a) (some b) = PriceResult.null := by
          simp only [getPriceFromElement]
          rw [if_pos (by rw [hab]; rfl)]
        constructor
        · exact iff_of_true hval (Or.inr (Or.inr ⟨a, b, rfl, rfl, hab⟩))
        · constructor
          · intro hnan
            rw [hval] at hnan
            exact PriceResult.noConfusion hnan
          · rintro ⟨x, y, hx, hy, hxy, _⟩
            cases hx
            cases hy
            exact absurd hab hxy
      · have hcond : ¬((a ++ b == "") = true) :=
          fun hcondeq => hab (eq_of_beq hcondeq)
        cases hpf : jsParseFloat (a ++ b) with
        | none =>
          have hval : getPriceFromElement (some a) (some b) = PriceResult.nan := by
            simp only [getPriceFromElement]
            rw [if_neg hcond, hpf]
          constructor
          · constructor
            · intro hnull
              rw [hval] at hnull
              exact PriceResult.noConfusion hnull
            · rintro (h | h | ⟨x, y, hx, hy, hxy⟩)
              · exact Option.noConfusion h
              · exact Option.noConfusion h
              · cases hx
                cases hy
                exact absurd hxy hab
          · exact iff_of_true hval ⟨a, b, rfl, rfl, hab, hpf⟩
        | some q =>
          have hval : getPriceFromElement (some a) (some b) = PriceResult.num q := by
            simp only [getPriceFromElement]
            rw [if_neg hcond, hpf]
          constructor
          · constructor
            · intro hnull
              rw [hval] at hnull
              exact PriceResult.noConfusion hnull
            · rintro (h | h | ⟨x, y, hx, hy, hxy⟩)
              · exact Option.noConfusion h
              · exact Option.noConfusion h
              · cases hx
                cases hy
                exact absurd hxy hab
          · constructor
            · intro hnan
              rw [hval] at hnan
              exact PriceResult.noConfusion hnan
            · rintro ⟨x, y, hx, hy, _, hpf2⟩
              cases hx
              cases hy
              rw [hpf] at hpf2
              exact Option.noConfusion hpf2

/-- C5 (confirmed): on two present non-empty digit strings the price
parser parses the plain concatenation, with no decimal point inserted
between the parts, so whole "12" with fraction "99" yields 1299, and a
missing fraction yields the absent value. -/
theorem getPriceFromElement_concatenates_digits :
    (∀ w f : String, w.data ≠ [] → f.data ≠ [] →
      (∀ c ∈ w.data, isDigitChar c = true) → (∀ c ∈ f.data, isDigitChar c = true) →
      getPriceFromElement (some w) (some f) =
        PriceResult.num (natOfDigits (w.data ++ f.data))) ∧
    getPriceFromElement (some "12") (some "99") = PriceResult.num 1299 ∧
    getPriceFromElement (some "12") none = PriceResult.null := by
  have hgen : ∀ w f : String, w.data ≠ [] → f.data ≠ [] →
      (∀ c ∈ w.data, isDigitChar c = true) → (∀ c ∈ f.data, isDigitChar c = true) →
      getPriceFromElement (some w) (some f) =
        PriceResult.num (natOfDigits (w.data ++ f.data)) := by
    intro w f hw hf hdw hdf
    have hcat : (w ++ f).data = w.data ++ f.data := String.data_append w f
    have hne : (w ++ f).data ≠ [] := by
      rw [hcat]
      intro hh
      exact hw (List.append_eq_nil.mp hh).1
    have hdig : ∀ c ∈ (w ++ f).data, isDigitChar c = true := by
      rw [hcat]
      intro c hc
      rcases List.mem_append.mp hc with h | h
      · exact hdw c h
      · exact hdf c h
    have hpf := jsParseFloat_digits (w ++ f) hne hdig
    rw [hcat] at hpf
    have hcond : ¬((w ++ f == "") = true) := by
      intro hcondeq
      have : (w ++ f).data = [] := by rw [eq_of_beq hcondeq]
      exact hne this
    simp only [getPriceFromElement]
    rw [if_neg hcond, hpf]
  refine ⟨hgen, ?_, rfl⟩
  have h12 := hgen "12" "99" (by decide) (by decide) (by decide) (by decide)
  have hval : natOfDigits ("12".data ++ "99".data) = 1299 := by decide
  rw [h12, hval]
  norm_num

/-- C2 (code_bug evidence): the delivery-date parser accepts the two
well-formed examples and rejects a non-matching string, but on the input
naming February 30 it does not return the absent value: under the
modelled V8 date parsing the day rolls over and the parser returns
March 2 of the current year. -/
theorem parseDeliveryDateString_feb30_rollover :
    parseDeliveryDateString 2026 "Mon, Aug 2" = some ⟨2026, 8, 2⟩ ∧
    parseDeliveryDateString 2026 "Mon, Aug 2 - Wed, Aug 4" = some ⟨2026, 8, 2⟩ ∧
    parseDeliveryDateString 2026 "August 2" = none ∧
    parseDeliveryDateString 2026 "mon, Aug 2" = none ∧
    parseDeliveryDateString 2026 "Mon, Feb 30" = some ⟨2026, 3, 2⟩ := by
  decide

/-- C3 (counterexample): a listing with the present price 0 refutes the
claim that every listing with a present price, including 0, is considered
by the lowest-price reducers: here the claimed extremum would be 0 and
the claimed match list would hold the listing, but the code ignores the
zero price, so the extremum is absent and the match list is empty. -/
theorem lowestPrice_zero_ignored_counterexample :
    listingPZero.price = some 0 ∧
    getLowestPriceOfProducts [listingPZero] = none ∧
    getProductsOfLowestPrice [listingPZero] = [] := by
  decide

/-- C3 (amended): the lowest-price reducers ignore exactly the listings
whose price is absent or zero; over the remaining listings the extremum is
the minimum numeric price and the match list holds exactly the listings
whose price equals that minimum; over the collection with prices
5, 5, absent, 8 the match list is exactly the two listings with
price 5. -/
theorem lowestPrice_reducers_spec :
    (∀ l : List Product,
      getLowestPriceOfProducts l = (presentNonzeroPrices l).min? ∧
      getProductsOfLowestPrice l = pricesAtMinimum l) ∧
    getProductsOfLowestPrice [listingP5a, listingP5b, listingPAbsent, listingP8] =
      [listingP5a, listingP5b] :=
  ⟨fun l => ⟨getLowestPriceOfProducts_eq l, getProductsOfLowestPrice_eq l⟩, by decide⟩

/-- C6 (confirmed): the highest-rating reducers ignore exactly the
listings whose rating is absent or zero; the extremum is the maximum over
the remaining ratings, the match list holds exactly the listings whose
rating equals that maximum, and when no listing has a nonzero rating the
extremum is absent and the match list is empty. -/
theorem highestRating_reducers_spec :
    ∀ l : List Product,
      getHighestRatingOfProducts l = (presentNonzeroRatings l).max? ∧
      getProductsOfHighestRating l = ratingsAtMaximum l ∧
      (presentNonzeroRatings l = [] →
        getHighestRatingOfProducts l = none ∧ getProductsOfHighestRating l = []) := by
  intro l
  refine ⟨getHighestRatingOfProducts_eq l, getProductsOfHighestRating_eq l,
    fun h => ⟨?_, ?_⟩⟩
  · rw [getHighestRatingOfProducts_eq, h]
    rfl
  · rw [getProductsOfHighestRating_eq]
    unfold ratingsAtMaximum
    rw [h]
    rfl

/-- C7 (confirmed): a valid criterion whose narrowing of the current
candidate set is empty is skipped, leaving the candidate set unchanged for
the next criterion; in particular on a collection where no listing has a
price the order PRICE then RATING resolves exactly as RATING alone. -/
theorem optimizer_skips_empty_criterion :
    (∀ (cur : List Product) (c : String) (rest : List String),
      OptimizationKeys.contains c = true → Optimizations c cur = [] →
      optimizeLoop cur (c :: rest) = optimizeLoop cur rest) ∧
    (∀ l : List Product, (∀ p ∈ l, p.price = none) →
      getProductOptimizedFor l ["PRICE", "RATING"] =
        getProductOptimizedFor l ["RATING"]) := by
  constructor
  · intro cur c rest hc he
    exact optimizeLoop_skip cur c rest hc he
  · intro l hnone
    have hprices : presentNonzeroPrices l = [] := by
      unfold presentNonzeroPrices
      rw [List.filterMap_eq_nil_iff]
      intro p hp
      rw [hnone p hp]
      rfl
    have hempty : Optimizations "PRICE" l = [] := by
      have h1 : Optimizations "PRICE" l = getProductsOfLowestPrice l := by
        unfold Optimizations
        rw [if_pos (by rfl)]
      rw [h1, getProductsOfLowestPrice_eq]
      unfold pricesAtMinimum
      rw [hprices]
      rfl
    have hloop := optimizeLoop_skip l "PRICE" ["RATING"] (by decide) hempty
    unfold getProductOptimizedFor
    rw [hloop]

/-- C8 (confirmed): a criteria list containing a tag that is not one of
PRICE, DELIVERY_DATE, RATING makes `getProductOptimizedFor` return the
absent value, whatever the listings collection. -/
theorem optimizer_aborts_on_invalid_criterion :
    ∀ (l : List Product) (cs : List String),
      (∃ c ∈ cs, OptimizationKeys.contains c = false) →
      getProductOptimizedFor l cs = none := by
  intro l cs h
  unfold getProductOptimizedFor
  rw [optimizeLoop_invalid cs l h]

/-- C8 (witness): the order DELIVERY_DATE then BOGUS returns the absent
value on a concrete non-empty collection. -/
theorem optimizer_aborts_on_invalid_criterion_witness :
    getProductOptimizedFor [listingA] ["DELIVERY_DATE", "BOGUS"] = none :=
  optimizer_aborts_on_invalid_criterion [listingA] ["DELIVERY_DATE", "BOGUS"]
    ⟨"BOGUS", by decide, by decide⟩

/-- C1 (counterexample): a non-empty collection together with a criteria
list holding one valid criterion and one invalid criterion returns the
absent value, refuting the claim that absence needs an empty collection or
an all-invalid criteria list. -/
theorem optimizer_none_despite_valid_criterion :
    getProductOptimizedFor [listingA] ["PRICE", "BOGUS"] = none ∧
    ([listingA] : List Product) ≠ [] ∧
    OptimizationKeys.contains "PRICE" = true ∧
    OptimizationKeys.contains "BOGUS" = false := by
  decide

/-- C1 (amended): `getProductOptimizedFor` returns the absent value
exactly when the initial listings collection is empty or at least one
criterion in the list is invalid; in particular, for every non-empty
collection whose criteria are all valid the result is a listing. -/
theorem optimizer_none_iff :
    ∀ (l : List Product) (cs : List String),
      getProductOptimizedFor l cs = none ↔
        (l = [] ∨ ∃ c ∈ cs, OptimizationKeys.contains c = false) := by
  intro l cs
  by_cases hv : ∀ c ∈ cs, OptimizationKeys.contains c = true
  · have hnoinv : ¬ ∃ c ∈ cs, OptimizationKeys.contains c = false := by
      rintro ⟨c, hc, hcf⟩
      rw [hv c hc] at hcf
      cases hcf
    have hmain : getProductOptimizedFor l cs =
        (if (specCascade l cs).length > 1 then
          (if (getProductsOfHighestRating (specCascade l cs)).isEmpty then
            specCascade l cs
          else getProductsOfHighestRating (specCascade l cs))
        else specCascade l cs).head? := by
      simp only [getProductOptimizedFor, optimizeLoop_valid cs l hv]
    by_cases hl : l = []
    · subst hl
      simp [hmain, specCascade_nil cs]
    · have hcas : specCascade l cs ≠ [] := specCascade_ne_nil cs l hl
      have hfin : (if (specCascade l cs).length > 1 then
          (if (getProductsOfHighestRating (specCascade l cs)).isEmpty then
            specCascade l cs
          else getProductsOfHighestRating (specCascade l cs))
        else specCascade l cs) ≠ [] := by
        split_ifs with h1 h2
        · exact hcas
        · intro hne
          rw [hne] at h2
          exact h2 List.isEmpty_nil
        · exact hcas
      rw [hmain]
      constructor
      · intro hh
        exact absurd (List.head?_eq_none_iff.mp hh) hfin
      · rintro (h | h)
        · exact absurd h hl
        · exact absurd h hnoinv
  · push_neg at hv
    obtain ⟨c, hc, hcf⟩ := hv
    have hcfalse : OptimizationKeys.contains c = false := by
      cases hcont : OptimizationKeys.contains c
      · rfl
      · exact absurd hcont hcf
    have hex : ∃ x ∈ cs, OptimizationKeys.contains x = false := ⟨c, hc, hcfalse⟩
    have hres : getProductOptimizedFor l cs = none := by
      unfold getProductOptimizedFor
      rw [optimizeLoop_invalid cs l hex]
    exact iff_of_true hres (Or.inr hex)

/-- C9 (confirmed): on an all-valid criteria list the optimizer equals the
spec-side cascade followed by the spec-side final disambiguation — narrow
by highest rating whenever more than one candidate remains, whether or not
RATING already appeared, keep the previous candidates when that narrowing
is empty, and return the first element of the final candidate set. -/
theorem optimizer_refines_spec_cascade_and_final :
    ∀ (l : List Product) (cs : List String),
      (∀ c ∈ cs, OptimizationKeys.contains c = true) →
      getProductOptimizedFor l cs = specFinalChoice (specCascade l cs) := by
  intro l cs hv
  simp only [getProductOptimizedFor, optimizeLoop_valid cs l hv, specFinalChoice]
  split_ifs <;> rfl

/-- C9 (witness): the refinement at a concrete collection and the
criteria order PRICE then RATING, a list in which RATING already
appears. -/
theorem optimizer_refines_spec_cascade_and_final_witness :
    getProductOptimizedFor [listingA, listingR5] ["PRICE", "RATING"] =
      specFinalChoice (specCascade [listingA, listingR5] ["PRICE", "RATING"]) :=
  optimizer_refines_spec_cascade_and_final [listingA, listingR5]
    ["PRICE", "RATING"] (by decide)

/-- C10 (confirmed): the optimizer only ever filters its candidate set,
so a successful criterion loop returns a sublist of the input collection
and every listing `getProductOptimizedFor` returns is an element of the
input collection. -/
theorem optimizer_result_mem_input :
    ∀ (l : List Product) (cs : List String),
      (∀ res, optimizeLoop l cs = some res → List.Sublist res l) ∧
      (∀ p, getProductOptimizedFor l cs = some p → p ∈ l) := by
  intro l cs
  constructor
  · intro res h
    exact optimizeLoop_sublist cs l res h
  · intro p h
    cases hl : optimizeLoop l cs with
    | none =>
      unfold getProductOptimizedFor at h
      rw [hl] at h
      cases h
    | some opt =>
      simp only [getProductOptimizedFor, hl] at h
      have hsub : List.Sublist opt l := optimizeLoop_sublist cs l opt hl
      have hmem : ∀ x : List Product, x.head? = some p → List.Sublist x l → p ∈ l :=
        fun x hx hs => hs.subset (mem_of_head?_eq_some hx)
      by_cases hlen : opt.length > 1
      · rw [if_pos hlen] at h
        by_cases he : (getProductsOfHighestRating opt).isEmpty = true
        · rw [if_pos he] at h
          exact hmem opt h hsub
        · rw [if_neg he] at h
          exact hmem _ h ((getProductsOfHighestRating_sublist opt).trans hsub)
      · rw [if_neg hlen] at h
        exact hmem opt h hsub

end ProductOptimizer
